import Mathlib

/-!
# Quadrature encoder: decode state machine

A shallow embedding of `src/quadrature.h` (the `Quadrature_encoder<A, B>` class template,
the `QEM::qem` table and the `Motion::motion` enumeration), followed by theorems about it.

Modelling conventions.

* The static data members of one instantiation of the template form the record `State`.
* `byte` members (`Enc_A`, `Enc_B`) are natural numbers; the only writes to them are
  `!x` (which yields 0 or 1) and the truncation of a sampled level to 8 bits in `begin`.
* `int` and `long` members are integers.  Signed overflow is undefined in C++; for
  `++ct` and `--ct` the model follows the arithmetic on the integers, so it describes
  the runs in which `ct` stays inside the range of `long`.
* The difference `new_count - old_ct` in `motion()` can leave the range of `long` for
  operands inside it. `long` has 32 bits on the boards the source names (Arduino Uno,
  Arduino Mega, ESP32); the difference is taken modulo 2^32 in two's complement
  (`wrap_long`), as those boards compute it.
* Reading `QEM::qem` outside its 16 entries is undefined in C++; the handlers are
  therefore functions into `Option State` that give `none` for an index outside `0..15`.
* The platform calls of `begin` (`pinMode`, `digitalRead`, `attachInterrupt`) are outside
  the file: the two levels that `digitalRead` returns are parameters of `begin`.
-/

namespace Motion

/-- The enumeration `Motion::motion`. -/
inductive motion where
  | frwd
  | back
  | stop
  deriving DecidableEq

end Motion

namespace QEM

/-- The table `QEM::qem`, the quadrature encoder matrix, as written in the source. -/
def qem : List Int := [0, -1, 1, 2, 1, 0, 2, -1, -1, 2, 0, 1, 2, 1, -1, 0]

/-- The array read `QEM::qem[i]` for an `int` index: defined for `0 ≤ i < 16` only. -/
def qem_at (i : Int) : Option Int :=
  if 0 ≤ i then qem[i.toNat]? else none

end QEM

namespace Quadrature_encoder

/-- The static data members of `Quadrature_encoder<A, B>`. -/
structure State where
  Enc_A : Nat
  Enc_B : Nat
  out_val : Int
  old_reading : Int
  new_reading : Int
  ct : Int
  old_ct : Int
  r : Bool
  deriving DecidableEq

/-- The static member initialisers: every member is zero (`LOW`), `r` is `false`. -/
def init : State :=
  { Enc_A := 0, Enc_B := 0, out_val := 0, old_reading := 0, new_reading := 0,
    ct := 0, old_ct := 0, r := false }

/-- The C++ expression `!x` on a `byte`, stored back into a `byte`. -/
def lnot (x : Nat) : Nat := if x = 0 then 1 else 0

/-- The body of `switch(out_val)`: `case 1: ++ct`, `case -1: --ct`, no default. -/
def switch_out (out_val ct : Int) : Int :=
  if out_val = 1 then ct + 1 else if out_val = -1 then ct - 1 else ct

/-- The method `begin()`; `a` and `b` are the values `digitalRead` returns for the two
pins, stored into the `byte` members. The readings and the counter are not written. -/
def begin (a b : Nat) (s : State) : State :=
  { s with Enc_A := a % 256, Enc_B := b % 256 }

/-- The method `count()`. -/
def count (s : State) : Int := s.ct

/-- The method `old_count()`. -/
def old_count (s : State) : Int := s.old_ct

/-- The method `reverse()`: `r = !r`. -/
def reverse (s : State) : State := { s with r := !s.r }

/-- The value a 32-bit `long` holds when the exact result of an operation is `x`:
`x` modulo 2^32, taken in the range -2^31 .. 2^31 - 1. -/
def wrap_long (x : Int) : Int := (x + 2147483648) % 4294967296 - 2147483648

/-- The method `motion()`: the returned classification and the state after the call.
`delta` is the `long` difference `new_count - old_ct`. The source tests `delta > 0`,
`delta < 0` and `delta == 0` in turn; the third test holds whenever it is reached, so
it is the final `else` here. -/
def motion (s : State) : Motion.motion × State :=
  let new_count := count s
  let delta := wrap_long (new_count - s.old_ct)
  let res :=
    if delta > 0 then Motion.motion.frwd
    else if delta < 0 then Motion.motion.back
    else Motion.motion.stop
  (res, { s with old_ct := new_count })

/-- The interrupt handler `delta_A()`. -/
def delta_A (s : State) : Option State :=
  let old_reading := s.new_reading
  let Enc_A := lnot s.Enc_A
  let new_reading : Int :=
    if s.r then (Enc_A : Int) * 2 + (s.Enc_B : Int) else (s.Enc_B : Int) * 2 + (Enc_A : Int)
  match QEM.qem_at (old_reading * 4 + new_reading) with
  | none => none
  | some out_val =>
    some { s with Enc_A := Enc_A, old_reading := old_reading, new_reading := new_reading,
                  out_val := out_val, ct := switch_out out_val s.ct }

/-- The interrupt handler `delta_B()`. -/
def delta_B (s : State) : Option State :=
  let old_reading := s.new_reading
  let Enc_B := lnot s.Enc_B
  let new_reading : Int :=
    if s.r then (s.Enc_A : Int) * 2 + (Enc_B : Int) else (Enc_B : Int) * 2 + (s.Enc_A : Int)
  match QEM.qem_at (old_reading * 4 + new_reading) with
  | none => none
  | some out_val =>
    some { s with Enc_B := Enc_B, old_reading := old_reading, new_reading := new_reading,
                  out_val := out_val, ct := switch_out out_val s.ct }

/-- Which of the two lines changed level. -/
inductive Edge where
  | A
  | B
  deriving DecidableEq

/-- The handler the platform runs for an edge on the given line. -/
def step (e : Edge) (s : State) : Option State :=
  match e with
  | Edge.A => delta_A s
  | Edge.B => delta_B s

/-- The handlers run one after the other, in the order of the edges. -/
def run : List Edge → State → Option State
  | [], s => some s
  | e :: es, s => (step e s).bind (run es)

/-- The values `out_val` takes along a run, one per handler invocation. -/
def lookups : List Edge → State → List Int
  | [], _ => []
  | e :: es, s =>
    match step e s with
    | none => []
    | some s1 => s1.out_val :: lookups es s1

/-- The 2-bit reading of the levels `a` (channel A) and `b` (channel B): channel B is
the high bit when the orientation flag `r` is `false`, channel A when it is `true`. -/
def compose (r : Bool) (a b : Nat) : Int :=
  if r then (a : Int) * 2 + (b : Int) else (b : Int) * 2 + (a : Int)

/-- The relation between a run and its replay under the opposite flag: same levels,
opposite flag, each stored reading composed from the levels under its own flag, and
opposite counters. -/
def Mirrored (s t : State) : Prop :=
  s.Enc_A ≤ 1 ∧ s.Enc_B ≤ 1 ∧ t.Enc_A = s.Enc_A ∧ t.Enc_B = s.Enc_B ∧ t.r = !s.r ∧
  s.new_reading = compose s.r s.Enc_A s.Enc_B ∧
  t.new_reading = compose t.r t.Enc_A t.Enc_B ∧ t.ct = -s.ct

/-- Two states with the same levels in {0,1} and opposite flags, each with the stored
reading composed from the levels under its own flag. Nothing is asked of the counters. -/
def Paired (s t : State) : Prop :=
  s.Enc_A ≤ 1 ∧ s.Enc_B ≤ 1 ∧ t.Enc_A = s.Enc_A ∧ t.Enc_B = s.Enc_B ∧ t.r = !s.r ∧
  s.new_reading = compose s.r s.Enc_A s.Enc_B ∧
  t.new_reading = compose t.r t.Enc_A t.Enc_B

/-- The counter change one handler invocation produces from the state `s`. -/
def ct_change (e : Edge) (s : State) : Option Int :=
  (step e s).map (fun s1 => count s1 - count s)

/-- The states the program can be in: the static initial state, and whatever `begin`
(sampling levels in {0,1}), the two handlers, `motion()` and `reverse()` make of a
state the program can be in. -/
inductive Reachable : State → Prop where
  | init : Reachable init
  | begin (a b : Nat) (s : State) : a ≤ 1 → b ≤ 1 → Reachable s → Reachable (begin a b s)
  | delta_A (s s1 : State) : Reachable s → delta_A s = some s1 → Reachable s1
  | delta_B (s s1 : State) : Reachable s → delta_B s = some s1 → Reachable s1
  | motion (s : State) : Reachable s → Reachable (motion s).2
  | reverse (s : State) : Reachable s → Reachable (reverse s)

/-- The literal the specification gives for the transition table, entry by entry:
`{0,-1,1,2, 1,0,2,-1, -1,2,0,1, 2,1,-1,0}`. -/
def spec_table : Fin 16 → Int :=
  ![0, -1, 1, 2, 1, 0, 2, -1, -1, 2, 0, 1, 2, 1, -1, 0]

/-- The low bit of a 2-bit reading. -/
def low_bit (x : Nat) : Nat := x % 2

/-- The high bit of a 2-bit reading. -/
def high_bit (x : Nat) : Nat := x / 2 % 2

/-- A call `begin()` makes into the platform. -/
inductive PlatformCall where
  | pinMode (pin : Int)
  | digitalRead (pin : Int)
  | attachInterrupt (interruptNum : Int) (handler : Edge)
  deriving DecidableEq

/-- The method `begin()` with the platform as parameters: `digitalRead` gives the level
of a pin and `digitalPinToInterrupt` the interrupt number of a pin (the platform's
"not an interrupt" value for a pin without one). The result is the state after the call
and the platform calls made, in order. The method returns `void`: the state is all its
caller gets back. -/
def begin_on (digitalRead : Int → Nat) (digitalPinToInterrupt : Int → Int)
    (A_pin B_pin : Int) (s : State) : State × List PlatformCall :=
  let pin_A_digital := A_pin
  let pin_B_digital := B_pin
  (begin (digitalRead pin_A_digital) (digitalRead pin_B_digital) s,
   [PlatformCall.pinMode pin_A_digital, PlatformCall.pinMode pin_B_digital,
    PlatformCall.digitalRead pin_A_digital, PlatformCall.digitalRead pin_B_digital,
    PlatformCall.attachInterrupt (digitalPinToInterrupt pin_A_digital) Edge.A,
    PlatformCall.attachInterrupt (digitalPinToInterrupt pin_B_digital) Edge.B])

/-- The stored reading is the one composed from the stored levels under the current
flag, and both levels are 0 or 1. -/
def Consistent (s : State) : Prop :=
  s.Enc_A ≤ 1 ∧ s.Enc_B ≤ 1 ∧ s.new_reading = compose s.r s.Enc_A s.Enc_B

/-- The exchange of the channel roles: the stored levels of A and B are swapped and the
orientation flag is negated; readings, counter and snapshot are left alone. -/
def sigma (s : State) : State :=
  { s with Enc_A := s.Enc_B, Enc_B := s.Enc_A, r := !s.r }

/-- The reading that goes with a counter residue modulo 4 when the run starts with both
lines low and the flag false: 0, 2, 3, 1 for the residues 0, 1, 2, 3. -/
def residue_reading (c : Int) : Int :=
  if c % 4 = 0 then 0 else if c % 4 = 1 then 2 else if c % 4 = 2 then 3 else 1

end Quadrature_encoder

open Quadrature_encoder

/-! ## Basic facts about the handlers -/

theorem lnot_le_one (x : Nat) : lnot x ≤ 1 := by
  unfold lnot; split <;> omega

theorem compose_range (r : Bool) (a b : Nat) (ha : a ≤ 1) (hb : b ≤ 1) :
    0 ≤ compose r a b ∧ compose r a b ≤ 3 := by
  unfold compose; split <;> omega

theorem qem_at_defined (i : Int) (h0 : 0 ≤ i) (h15 : i ≤ 15) :
    ∃ v, QEM.qem_at i = some v ∧ (v = -1 ∨ v = 0 ∨ v = 1 ∨ v = 2) := by
  interval_cases i <;> simp [QEM.qem_at, QEM.qem]

theorem delta_A_eq (s s1 : State) (h : delta_A s = some s1) :
    QEM.qem_at (s.new_reading * 4 + compose s.r (lnot s.Enc_A) s.Enc_B) = some s1.out_val ∧
    s1 = { s with Enc_A := lnot s.Enc_A, old_reading := s.new_reading,
                  new_reading := compose s.r (lnot s.Enc_A) s.Enc_B,
                  out_val := s1.out_val, ct := switch_out s1.out_val s.ct } := by
  unfold delta_A at h
  simp only [] at h
  unfold compose
  split at h
  · exact absurd h (by simp)
  · rename_i out hq
    simp only [Option.some.injEq] at h
    subst h
    exact ⟨hq, rfl⟩

theorem delta_B_eq (s s1 : State) (h : delta_B s = some s1) :
    QEM.qem_at (s.new_reading * 4 + compose s.r s.Enc_A (lnot s.Enc_B)) = some s1.out_val ∧
    s1 = { s with Enc_B := lnot s.Enc_B, old_reading := s.new_reading,
                  new_reading := compose s.r s.Enc_A (lnot s.Enc_B),
                  out_val := s1.out_val, ct := switch_out s1.out_val s.ct } := by
  unfold delta_B at h
  simp only [] at h
  unfold compose
  split at h
  · exact absurd h (by simp)
  · rename_i out hq
    simp only [Option.some.injEq] at h
    subst h
    exact ⟨hq, rfl⟩

theorem delta_A_of_lookup (s : State) (v : Int)
    (h : QEM.qem_at (s.new_reading * 4 + compose s.r (lnot s.Enc_A) s.Enc_B) = some v) :
    delta_A s =
      some { s with Enc_A := lnot s.Enc_A, old_reading := s.new_reading,
                    new_reading := compose s.r (lnot s.Enc_A) s.Enc_B,
                    out_val := v, ct := switch_out v s.ct } := by
  unfold compose at h
  unfold delta_A compose
  simp only [h]

theorem delta_B_of_lookup (s : State) (v : Int)
    (h : QEM.qem_at (s.new_reading * 4 + compose s.r s.Enc_A (lnot s.Enc_B)) = some v) :
    delta_B s =
      some { s with Enc_B := lnot s.Enc_B, old_reading := s.new_reading,
                    new_reading := compose s.r s.Enc_A (lnot s.Enc_B),
                    out_val := v, ct := switch_out v s.ct } := by
  unfold compose at h
  unfold delta_B compose
  simp only [h]

theorem step_ct (e : Edge) (s s1 : State) (h : step e s = some s1) :
    s1.ct = switch_out s1.out_val s.ct := by
  cases e
  · have h2 := (delta_A_eq s s1 h).2
    rw [h2]
  · have h2 := (delta_B_eq s s1 h).2
    rw [h2]

theorem switch_out_inert (v ct : Int) (h1 : v ≠ 1) (h2 : v ≠ -1) : switch_out v ct = ct := by
  unfold switch_out
  rw [if_neg h1, if_neg h2]

theorem run_inert (es : List Edge) :
    ∀ s s2 : State, run es s = some s2 →
      (∀ v ∈ lookups es s, v ≠ 1 ∧ v ≠ -1) → s2.ct = s.ct := by
  induction es with
  | nil =>
    intro s s2 h _
    simp only [run, Option.some.injEq] at h
    rw [h]
  | cons e es ih =>
    intro s s2 h hv
    cases hs : step e s with
    | none => simp [run, hs] at h
    | some s1 =>
      simp only [run, hs, Option.some_bind] at h
      simp only [lookups, hs, List.mem_cons, forall_eq_or_imp] at hv
      rw [ih s1 s2 h hv.2, step_ct e s s1 hs]
      exact switch_out_inert _ _ hv.1.1 hv.1.2

/-! ## C1: the counter update rule -/

/-- C1. For every state with both channel levels in {0,1} and stored reading in 0..3,
each handler returns; it stores the reading before the edge as `old_reading`, the reading
recomposed after toggling its own level as `new_reading`, and `out_val` is the table
entry at `old_reading * 4 + new_reading`. The counter goes up by one when that entry is
1, down by one when it is -1, and keeps its value when the entry is 0 or 2. Along every
run of handlers whose lookups all have magnitude 2 the counter keeps its value. -/
theorem C1_counter_update_rule (s : State) (hA : s.Enc_A ≤ 1) (hB : s.Enc_B ≤ 1)
    (h0 : 0 ≤ s.new_reading) (h3 : s.new_reading ≤ 3) :
    (∃ v s1, delta_A s = some s1 ∧
        s1.old_reading = s.new_reading ∧
        s1.new_reading = compose s.r (lnot s.Enc_A) s.Enc_B ∧
        QEM.qem_at (s1.old_reading * 4 + s1.new_reading) = some v ∧ s1.out_val = v ∧
        (v = 1 → s1.ct = s.ct + 1) ∧ (v = -1 → s1.ct = s.ct - 1) ∧
        (v = 0 ∨ v = 2 → s1.ct = s.ct) ∧ (v = -1 ∨ v = 0 ∨ v = 1 ∨ v = 2)) ∧
    (∃ v s1, delta_B s = some s1 ∧
        s1.old_reading = s.new_reading ∧
        s1.new_reading = compose s.r s.Enc_A (lnot s.Enc_B) ∧
        QEM.qem_at (s1.old_reading * 4 + s1.new_reading) = some v ∧ s1.out_val = v ∧
        (v = 1 → s1.ct = s.ct + 1) ∧ (v = -1 → s1.ct = s.ct - 1) ∧
        (v = 0 ∨ v = 2 → s1.ct = s.ct) ∧ (v = -1 ∨ v = 0 ∨ v = 1 ∨ v = 2)) ∧
    (∀ es s2, run es s = some s2 →
        (∀ v ∈ lookups es s, v = 2 ∨ v = -2) → s2.ct = s.ct) := by
  refine ⟨?_, ?_, ?_⟩
  · have hr := compose_range s.r (lnot s.Enc_A) s.Enc_B (lnot_le_one _) hB
    obtain ⟨v, hv, hcases⟩ :=
      qem_at_defined (s.new_reading * 4 + compose s.r (lnot s.Enc_A) s.Enc_B)
        (by omega) (by omega)
    refine ⟨v, _, delta_A_of_lookup s v hv, rfl, rfl, hv, rfl, ?_, ?_, ?_, hcases⟩
    · intro h; simp [switch_out, h]
    · intro h; simp [switch_out, h]
    · intro h; rcases h with h | h <;> simp [switch_out, h]
  · have hr := compose_range s.r s.Enc_A (lnot s.Enc_B) hA (lnot_le_one _)
    obtain ⟨v, hv, hcases⟩ :=
      qem_at_defined (s.new_reading * 4 + compose s.r s.Enc_A (lnot s.Enc_B))
        (by omega) (by omega)
    refine ⟨v, _, delta_B_of_lookup s v hv, rfl, rfl, hv, rfl, ?_, ?_, ?_, hcases⟩
    · intro h; simp [switch_out, h]
    · intro h; simp [switch_out, h]
    · intro h; rcases h with h | h <;> simp [switch_out, h]
  · intro es s2 hrun hv
    refine run_inert es s s2 hrun ?_
    intro v hmem
    rcases hv v hmem with h | h <;> subst h <;> decide

/-- C1 at the state left by `begin` with line A high and line B low (levels 1 and 0,
stored reading 0): an edge on B looks up the entry for old 0, new 3, which is 2, and the
counter after the handler is the counter before it. -/
theorem C1_counter_update_rule_witness :
    (begin 1 0 init).Enc_A ≤ 1 ∧ (begin 1 0 init).Enc_B ≤ 1 ∧
    0 ≤ (begin 1 0 init).new_reading ∧ (begin 1 0 init).new_reading ≤ 3 ∧
    lookups [Edge.B] (begin 1 0 init) = [2] ∧
    (run [Edge.B] (begin 1 0 init)).map State.ct = some (begin 1 0 init).ct := by
  have hrun : run [Edge.B] (begin 1 0 init) = some
      { Enc_A := 1, Enc_B := 1, out_val := 2, old_reading := 0, new_reading := 3,
        ct := 0, old_ct := 0, r := false } := by decide
  have h := (C1_counter_update_rule (begin 1 0 init) (by decide) (by decide)
    (by decide) (by decide)).2.2 [Edge.B] _ hrun (by decide)
  refine ⟨by decide, by decide, by decide, by decide, by decide, ?_⟩
  rw [hrun]
  exact congrArg some h

/-! ## C2: the four-edge scenario A, B, A, B -/

/-- C2, as stated, fails. From the encoder initialised with both lines low, the handlers
run in the order A, B, A, B do not look up 1 four times, do not leave the counter at 4,
and the following `motion()` does not return `frwd`. -/
theorem C2_scenario_counterexample :
    lookups [Edge.A, Edge.B, Edge.A, Edge.B] (begin 0 0 init) ≠ [1, 1, 1, 1] ∧
    (run [Edge.A, Edge.B, Edge.A, Edge.B] (begin 0 0 init)).map count ≠ some 4 ∧
    (run [Edge.A, Edge.B, Edge.A, Edge.B] (begin 0 0 init)).map (fun s => (motion s).1)
      ≠ some Motion.motion.frwd := by
  decide

/-- C2, amended. The encoder initialised with both lines low has stored reading 0,
counter 0, snapshot 0 and flag false. Running the handlers in the order A, B, A, B makes
the reading go 0, 1, 3, 2, 0; each of the four table lookups returns -1; the counter
ends at -4 and a following `motion()` returns `back`. -/
theorem C2_scenario_amended :
    (begin 0 0 init).Enc_A = 0 ∧ (begin 0 0 init).Enc_B = 0 ∧
    (begin 0 0 init).new_reading = 0 ∧ count (begin 0 0 init) = 0 ∧
    old_count (begin 0 0 init) = 0 ∧ (begin 0 0 init).r = false ∧
    (run [Edge.A] (begin 0 0 init)).map State.new_reading = some 1 ∧
    (run [Edge.A, Edge.B] (begin 0 0 init)).map State.new_reading = some 3 ∧
    (run [Edge.A, Edge.B, Edge.A] (begin 0 0 init)).map State.new_reading = some 2 ∧
    (run [Edge.A, Edge.B, Edge.A, Edge.B] (begin 0 0 init)).map State.new_reading = some 0 ∧
    lookups [Edge.A, Edge.B, Edge.A, Edge.B] (begin 0 0 init) = [-1, -1, -1, -1] ∧
    QEM.qem_at (0 * 4 + 1) = some (-1) ∧ QEM.qem_at (1 * 4 + 3) = some (-1) ∧
    QEM.qem_at (3 * 4 + 2) = some (-1) ∧ QEM.qem_at (2 * 4 + 0) = some (-1) ∧
    (run [Edge.A, Edge.B, Edge.A, Edge.B] (begin 0 0 init)).map count = some (-4) ∧
    (run [Edge.A, Edge.B, Edge.A, Edge.B] (begin 0 0 init)).map (fun s => (motion s).1)
      = some Motion.motion.back := by
  decide

/-! ## C3: the counter accumulates the unit lookups -/

theorem step_defined (e : Edge) (s : State) (hA : s.Enc_A ≤ 1) (hB : s.Enc_B ≤ 1)
    (h0 : 0 ≤ s.new_reading) (h3 : s.new_reading ≤ 3) :
    ∃ s1, step e s = some s1 ∧ s1.Enc_A ≤ 1 ∧ s1.Enc_B ≤ 1 ∧
      0 ≤ s1.new_reading ∧ s1.new_reading ≤ 3 := by
  cases e
  · have hr := compose_range s.r (lnot s.Enc_A) s.Enc_B (lnot_le_one _) hB
    obtain ⟨v, hv, _⟩ :=
      qem_at_defined (s.new_reading * 4 + compose s.r (lnot s.Enc_A) s.Enc_B)
        (by omega) (by omega)
    exact ⟨_, delta_A_of_lookup s v hv, lnot_le_one _, hB, hr.1, hr.2⟩
  · have hr := compose_range s.r s.Enc_A (lnot s.Enc_B) hA (lnot_le_one _)
    obtain ⟨v, hv, _⟩ :=
      qem_at_defined (s.new_reading * 4 + compose s.r s.Enc_A (lnot s.Enc_B))
        (by omega) (by omega)
    exact ⟨_, delta_B_of_lookup s v hv, hA, lnot_le_one _, hr.1, hr.2⟩

theorem switch_out_count (v ct : Int) :
    switch_out v ct = ct + (List.count 1 [v] : Int) - (List.count (-1) [v] : Int) := by
  unfold switch_out
  by_cases h1 : v = 1
  · subst h1; simp
  · by_cases h2 : v = -1
    · subst h2; simp
    · simp [h1, h2, List.count_cons, List.count_nil]

theorem run_accumulates (es : List Edge) :
    ∀ s : State, s.Enc_A ≤ 1 → s.Enc_B ≤ 1 → 0 ≤ s.new_reading → s.new_reading ≤ 3 →
      ∃ s2, run es s = some s2 ∧ (lookups es s).length = es.length ∧
        s2.ct = s.ct + ((lookups es s).count 1 : Int) - ((lookups es s).count (-1) : Int) := by
  induction es with
  | nil =>
    intro s _ _ _ _
    exact ⟨s, rfl, rfl, by simp [lookups]⟩
  | cons e es ih =>
    intro s hA hB h0 h3
    obtain ⟨s1, hs, hA1, hB1, h01, h31⟩ := step_defined e s hA hB h0 h3
    obtain ⟨s2, hrun, hlen, hct⟩ := ih s1 hA1 hB1 h01 h31
    refine ⟨s2, by simp [run, hs, hrun], by simp [lookups, hs, hlen], ?_⟩
    have hstep := step_ct e s s1 hs
    have hsw := switch_out_count s1.out_val s.ct
    have hl : lookups (e :: es) s = [s1.out_val] ++ lookups es s1 := by
      simp [lookups, hs]
    rw [hl, List.count_append, List.count_append, hct, hstep, hsw]
    push_cast
    ring

/-- C3. From every state with counter 0 and stored reading 0 (levels in {0,1}, either
value of the flag), every sequence of A/B edges runs to the end, with one lookup per edge,
and leaves the counter equal to the number of lookups that returned 1 minus the number
that returned -1. From the initial state the edges B, A, B, A look up 1 four times and
leave the counter at 4; the edges A, B, A, B look up -1 four times and leave it at -4. -/
theorem C3_accumulation (s : State) (es : List Edge) (hA : s.Enc_A ≤ 1) (hB : s.Enc_B ≤ 1)
    (hr : s.new_reading = 0) (hc : s.ct = 0) :
    (∃ s2, run es s = some s2 ∧ (lookups es s).length = es.length ∧
      count s2 = ((lookups es s).count 1 : Int) - ((lookups es s).count (-1) : Int)) ∧
    (lookups [Edge.B, Edge.A, Edge.B, Edge.A] init = [1, 1, 1, 1] ∧
      (run [Edge.B, Edge.A, Edge.B, Edge.A] init).map count = some 4) ∧
    (lookups [Edge.A, Edge.B, Edge.A, Edge.B] init = [-1, -1, -1, -1] ∧
      (run [Edge.A, Edge.B, Edge.A, Edge.B] init).map count = some (-4)) := by
  refine ⟨?_, by decide, by decide⟩
  obtain ⟨s2, hrun, hlen, hct⟩ := run_accumulates es s hA hB (by omega) (by omega)
  refine ⟨s2, hrun, hlen, ?_⟩
  rw [count, hct, hc]
  ring

/-- C3 at the initial state with the flag set by one `reverse()`, for the edges A, B, A:
the run ends in a state whose counter is the number of 1 lookups minus the number of -1
lookups, here 3 - 0. -/
theorem C3_accumulation_witness :
    (reverse init).Enc_A ≤ 1 ∧ (reverse init).Enc_B ≤ 1 ∧
    (reverse init).new_reading = 0 ∧ (reverse init).ct = 0 ∧
    lookups [Edge.A, Edge.B, Edge.A] (reverse init) = [1, 1, 1] ∧
    ∃ s2, run [Edge.A, Edge.B, Edge.A] (reverse init) = some s2 ∧
      (lookups [Edge.A, Edge.B, Edge.A] (reverse init)).length = 3 ∧
      count s2 = ((lookups [Edge.A, Edge.B, Edge.A] (reverse init)).count 1 : Int)
        - ((lookups [Edge.A, Edge.B, Edge.A] (reverse init)).count (-1) : Int) :=
  ⟨by decide, by decide, by decide, by decide, by decide,
    (C3_accumulation (reverse init) [Edge.A, Edge.B, Edge.A]
      (by decide) (by decide) (by decide) (by decide)).1⟩

/-! ## C4: `reverse()` before a replay negates the counter delta -/

theorem step_mirrored (e : Edge) (s t : State) (h : Mirrored s t) :
    ∃ s1 t1, step e s = some s1 ∧ step e t = some t1 ∧ Mirrored s1 t1 := by
  obtain ⟨a, b, ov, orr, nr, c, oc, r⟩ := s
  obtain ⟨a2, b2, ov2, orr2, nr2, c2, oc2, r2⟩ := t
  obtain ⟨hA, hB, h1, h2, h3, h4, h5, h6⟩ := h
  simp only at hA hB h1 h2 h3 h4 h5 h6
  subst h1 h2 h3 h4 h5 h6
  interval_cases a2 <;> interval_cases b2 <;> cases r <;> cases e <;>
    refine ⟨_, _, rfl, rfl, ?_⟩ <;>
    simp [Mirrored, compose, lnot, switch_out, QEM.qem] <;> omega

theorem run_mirrored (es : List Edge) :
    ∀ s t : State, Mirrored s t →
      ∃ s1 t1, run es s = some s1 ∧ run es t = some t1 ∧ Mirrored s1 t1 := by
  induction es with
  | nil =>
    intro s t h
    exact ⟨s, t, rfl, rfl, h⟩
  | cons e es ih =>
    intro s t h
    obtain ⟨s1, t1, hs, ht, h1⟩ := step_mirrored e s t h
    obtain ⟨s2, t2, hs2, ht2, h2⟩ := ih s1 t1 h1
    exact ⟨s2, t2, by simp [run, hs, hs2], by simp [run, ht, ht2], h2⟩

theorem mirrored_init : Mirrored init (reverse init) := by
  simp [Mirrored, init, reverse, compose]

/-- C4. For every finite sequence of A/B edges, the run from the initial state (both
lines low, reading 0, counter 0, flag false) and the run of the same sequence from the
initial state after one `reverse()` both reach the end, and if the first changes the
counter by N the second changes it by -N. -/
theorem C4_reverse_negates_replay (es : List Edge) :
    ∃ N : Int,
      (run es init).map (fun s2 => count s2 - count init) = some N ∧
      (run es (reverse init)).map (fun t2 => count t2 - count (reverse init)) = some (-N) := by
  obtain ⟨s2, t2, hs, ht, hm⟩ := run_mirrored es init (reverse init) mirrored_init
  refine ⟨count s2 - count init, by simp [hs], ?_⟩
  obtain ⟨_, _, _, _, _, _, _, hct⟩ := hm
  rw [ht]
  simp [count, hct, init, reverse]

/-! ## C5: `reverse()` immediately before one edge -/

theorem reachable_bounds (s : State) (h : Reachable s) :
    s.Enc_A ≤ 1 ∧ s.Enc_B ≤ 1 ∧ (0 ≤ s.old_reading ∧ s.old_reading ≤ 3) ∧
      (0 ≤ s.new_reading ∧ s.new_reading ≤ 3) := by
  induction h with
  | init => simp [init]
  | begin a b s ha hb _ ih =>
    obtain ⟨_, _, ho, hn⟩ := ih
    refine ⟨?_, ?_, ho, hn⟩
    · show a % 256 ≤ 1
      omega
    · show b % 256 ≤ 1
      omega
  | delta_A s s1 _ hd ih =>
    obtain ⟨_, hB, _, hn⟩ := ih
    have h2 := (delta_A_eq s s1 hd).2
    have hr := compose_range s.r (lnot s.Enc_A) s.Enc_B (lnot_le_one _) hB
    rw [h2]
    exact ⟨lnot_le_one _, hB, hn, hr⟩
  | delta_B s s1 _ hd ih =>
    obtain ⟨hA, _, _, hn⟩ := ih
    have h2 := (delta_B_eq s s1 hd).2
    have hr := compose_range s.r s.Enc_A (lnot s.Enc_B) hA (lnot_le_one _)
    rw [h2]
    exact ⟨hA, lnot_le_one _, hn, hr⟩
  | motion s _ ih => exact ih
  | reverse s _ ih => exact ih

theorem reverse_change (s : State) (e : Edge) (hA : s.Enc_A ≤ 1) (hB : s.Enc_B ≤ 1)
    (h0 : 0 ≤ s.new_reading) (h3 : s.new_reading ≤ 3) :
    ∃ d d2 : Int, ct_change e s = some d ∧ ct_change e (reverse s) = some d2 ∧
      (s.Enc_A = s.Enc_B → d2 = -d) ∧ (s.Enc_A ≠ s.Enc_B → d2 = d) := by
  obtain ⟨a, b, ov, orr, nr, c, oc, r⟩ := s
  simp only at hA hB h0 h3
  interval_cases a <;> interval_cases b <;> interval_cases nr <;> cases r <;> cases e <;>
    refine ⟨_, _, rfl, rfl, ?_⟩ <;>
    simp [count, switch_out, QEM.qem, reverse, lnot]

/-- C5, as stated, fails. The state reached from the initial state by one edge on A has
levels A = 1, B = 0 and stored reading 1. An edge on B from it changes the counter
by -1, and it changes the counter by -1 as well when `reverse()` is called immediately
before it: the two changes are equal, not opposite. So the negation does not hold in
every state that a run of handlers reaches from the initial state. -/
theorem C5_reverse_counterexample :
    delta_A init = some
      { Enc_A := 1, Enc_B := 0, out_val := -1, old_reading := 0, new_reading := 1,
        ct := -1, old_ct := 0, r := false } ∧
    ct_change Edge.B
      { Enc_A := 1, Enc_B := 0, out_val := -1, old_reading := 0, new_reading := 1,
        ct := -1, old_ct := 0, r := false } = some (-1) ∧
    ct_change Edge.B (reverse
      { Enc_A := 1, Enc_B := 0, out_val := -1, old_reading := 0, new_reading := 1,
        ct := -1, old_ct := 0, r := false }) = some (-1) ∧
    ¬ (∀ (es : List Edge) (s : State), run es init = some s → ∀ (e : Edge) (d d2 : Int),
        ct_change e s = some d → ct_change e (reverse s) = some d2 → d2 = -d) := by
  refine ⟨by decide, by decide, by decide, ?_⟩
  intro hall
  have hrun : run [Edge.A] init = some
      { Enc_A := 1, Enc_B := 0, out_val := -1, old_reading := 0, new_reading := 1,
        ct := -1, old_ct := 0, r := false } := by decide
  have h := hall [Edge.A] _ hrun Edge.B (-1) (-1) (by decide) (by decide)
  exact absurd h (by decide)

theorem first_step_paired (e : Edge) (s : State) (hA : s.Enc_A ≤ 1) (hB : s.Enc_B ≤ 1)
    (h0 : 0 ≤ s.new_reading) (h3 : s.new_reading ≤ 3) :
    ∃ s1 t1, step e s = some s1 ∧ step e (reverse s) = some t1 ∧ Paired s1 t1 := by
  obtain ⟨a, b, ov, orr, nr, c, oc, r⟩ := s
  simp only at hA hB h0 h3
  interval_cases a <;> interval_cases b <;> interval_cases nr <;> cases r <;> cases e <;>
    refine ⟨_, _, rfl, rfl, ?_⟩ <;>
    simp [Paired, compose, reverse, lnot]

theorem step_paired (e : Edge) (s t : State) (h : Paired s t) :
    ∃ s1 t1 d, step e s = some s1 ∧ step e t = some t1 ∧ Paired s1 t1 ∧
      s1.ct - s.ct = d ∧ t1.ct - t.ct = -d := by
  obtain ⟨a, b, ov, orr, nr, c, oc, r⟩ := s
  obtain ⟨a2, b2, ov2, orr2, nr2, c2, oc2, r2⟩ := t
  obtain ⟨hA, hB, h1, h2, h3, h4, h5⟩ := h
  simp only at hA hB h1 h2 h3 h4 h5
  subst h1 h2 h3 h4 h5
  interval_cases a2 <;> interval_cases b2 <;> cases r <;> cases e <;>
    refine ⟨_, _, _, rfl, rfl, ?_, rfl, ?_⟩ <;>
    simp [Paired, compose, lnot, switch_out, QEM.qem]

theorem run_paired (es : List Edge) :
    ∀ s t : State, Paired s t →
      ∃ s1 t1, run es s = some s1 ∧ run es t = some t1 ∧ Paired s1 t1 := by
  induction es with
  | nil =>
    intro s t h
    exact ⟨s, t, rfl, rfl, h⟩
  | cons e es ih =>
    intro s t h
    obtain ⟨s1, t1, _, hs, ht, h1, _, _⟩ := step_paired e s t h
    obtain ⟨s2, t2, hs2, ht2, h2⟩ := ih s1 t1 h1
    exact ⟨s2, t2, by simp [run, hs, hs2], by simp [run, ht, ht2], h2⟩

/-- C5, amended. Take a reachable state, an edge `e1`, any further edges `es` and one
more edge `e`, and compare the run without `reverse()` with the run in which `reverse()`
is called immediately before `e1`. Both runs return at every edge. For the first edge
after `reverse()`: when the two stored channel levels are equal, its counter change is
the negation of the change of the same edge without `reverse()`. For the second and
every later edge after `reverse()` (the edge `e`, after `e1` and `es`): its counter
change is the negation of the change the same edge produces in the run without
`reverse()`. -/
theorem C5_reverse_before_edge (s : State) (e1 : Edge) (es : List Edge) (e : Edge)
    (h : Reachable s) :
    (∃ d d2 : Int, ct_change e1 s = some d ∧ ct_change e1 (reverse s) = some d2 ∧
      (s.Enc_A = s.Enc_B → d2 = -d)) ∧
    (∃ (sA sB : State) (d : Int),
      run (e1 :: es) s = some sA ∧ run (e1 :: es) (reverse s) = some sB ∧
      ct_change e sA = some d ∧ ct_change e sB = some (-d)) := by
  obtain ⟨hA, hB, _, h0, h3⟩ := reachable_bounds s h
  constructor
  · obtain ⟨d, d2, hd, hd2, heq, _⟩ := reverse_change s e1 hA hB h0 h3
    exact ⟨d, d2, hd, hd2, heq⟩
  · obtain ⟨s1, t1, hs1, ht1, hp1⟩ := first_step_paired e1 s hA hB h0 h3
    obtain ⟨sA, sB, hsA, hsB, hp⟩ := run_paired es s1 t1 hp1
    obtain ⟨s2, t2, d, hs2, ht2, _, hd, hd2⟩ := step_paired e sA sB hp
    refine ⟨sA, sB, d, by simp [run, hs1, hsA], by simp [run, ht1, hsB], ?_, ?_⟩
    · simp [ct_change, hs2, count, hd]
    · simp [ct_change, ht2, count, hd2]

/-- C5 (amended) at the state reached from the initial state by one edge on A (levels
A = 1, B = 0, reading 1, counter -1), for the edges B and then A. The first edge after
`reverse()`, on B, changes the counter by -1 in both runs; the second edge, on A,
changes it by -1 without `reverse()` and by +1 with it. -/
theorem C5_reverse_before_edge_witness :
    Reachable
      { Enc_A := 1, Enc_B := 0, out_val := -1, old_reading := 0, new_reading := 1,
        ct := -1, old_ct := 0, r := false } ∧
    (run [Edge.B]
      { Enc_A := 1, Enc_B := 0, out_val := -1, old_reading := 0, new_reading := 1,
        ct := -1, old_ct := 0, r := false }).bind (ct_change Edge.A) = some (-1) ∧
    (run [Edge.B] (reverse
      { Enc_A := 1, Enc_B := 0, out_val := -1, old_reading := 0, new_reading := 1,
        ct := -1, old_ct := 0, r := false })).bind (ct_change Edge.A) = some 1 ∧
    ∃ (sA sB : State) (d : Int),
      run [Edge.B]
        { Enc_A := 1, Enc_B := 0, out_val := -1, old_reading := 0, new_reading := 1,
          ct := -1, old_ct := 0, r := false } = some sA ∧
      run [Edge.B] (reverse
        { Enc_A := 1, Enc_B := 0, out_val := -1, old_reading := 0, new_reading := 1,
          ct := -1, old_ct := 0, r := false }) = some sB ∧
      ct_change Edge.A sA = some d ∧ ct_change Edge.A sB = some (-d) :=
  have hr : Reachable
      { Enc_A := 1, Enc_B := 0, out_val := -1, old_reading := 0, new_reading := 1,
        ct := -1, old_ct := 0, r := false } :=
    Reachable.delta_A init _ Reachable.init (by decide)
  ⟨hr, by decide, by decide, (C5_reverse_before_edge _ Edge.B [] Edge.A hr).2⟩

/-! ## C6 and C7: the motion classifier -/

theorem wrap_long_id (x : Int) (hlo : -2147483648 ≤ x) (hhi : x ≤ 2147483647) :
    wrap_long x = x := by
  unfold wrap_long
  omega

/-- C6, as stated, fails. In the state with counter 2147483647 and snapshot -1, both
values of a 32-bit `long`, `count() - old_count()` is positive, 2147483648, and
`motion()` returns `back`: the `long` difference is -2147483648. -/
theorem C6_motion_counterexample :
    count
      { Enc_A := 0, Enc_B := 0, out_val := 0, old_reading := 0, new_reading := 0,
        ct := 2147483647, old_ct := -1, r := false }
      - old_count
      { Enc_A := 0, Enc_B := 0, out_val := 0, old_reading := 0, new_reading := 0,
        ct := 2147483647, old_ct := -1, r := false } = 2147483648 ∧
    (motion
      { Enc_A := 0, Enc_B := 0, out_val := 0, old_reading := 0, new_reading := 0,
        ct := 2147483647, old_ct := -1, r := false }).1 = Motion.motion.back ∧
    ¬ (∀ s : State, (motion s).1 = Motion.motion.frwd ↔ count s - old_count s > 0) := by
  refine ⟨by decide, by decide, ?_⟩
  intro hall
  have h := (hall
      { Enc_A := 0, Enc_B := 0, out_val := 0, old_reading := 0, new_reading := 0,
        ct := 2147483647, old_ct := -1, r := false }).2 (by decide)
  exact absurd h (by decide)

/-- C6, amended. For every state in which the difference `count() - old_count()` is a
value of `long` (between -2147483648 and 2147483647), `motion()` returns `frwd` exactly
when the difference is positive, `back` exactly when it is negative and `stop` exactly
when it is zero. For every state, after the call `old_count()` equals the value
`count()` had at the call, and every member other than the snapshot is as before. -/
theorem C6_motion_classification (s : State) :
    (-2147483648 ≤ count s - old_count s → count s - old_count s ≤ 2147483647 →
      ((motion s).1 = Motion.motion.frwd ↔ count s - old_count s > 0) ∧
      ((motion s).1 = Motion.motion.back ↔ count s - old_count s < 0) ∧
      ((motion s).1 = Motion.motion.stop ↔ count s - old_count s = 0)) ∧
    old_count (motion s).2 = count s ∧
    (motion s).2 = { s with old_ct := s.ct } := by
  refine ⟨?_, rfl, rfl⟩
  intro hlo hhi
  simp only [count, old_count] at hlo hhi
  have hw := wrap_long_id (s.ct - s.old_ct) hlo hhi
  refine ⟨?_, ?_, ?_⟩ <;>
    simp only [motion, count, old_count, hw] <;>
    split_ifs <;> simp <;> omega

/-- C6 (amended) at the state with counter 2 and snapshot 5: the difference is -3 and
`motion()` returns `back`. -/
theorem C6_motion_classification_witness :
    (motion
      { Enc_A := 0, Enc_B := 0, out_val := 0, old_reading := 0, new_reading := 0,
        ct := 2, old_ct := 5, r := false }).1 = Motion.motion.back :=
  (((C6_motion_classification
      { Enc_A := 0, Enc_B := 0, out_val := 0, old_reading := 0, new_reading := 0,
        ct := 2, old_ct := 5, r := false }).1 (by decide) (by decide)).2.1).2 (by decide)

/-- C7. When the snapshot equals the counter, as in the freshly initialised state, two
consecutive `motion()` calls both return `stop`. For every state, the second of two
back-to-back `motion()` calls returns `stop` and leaves `old_count()` equal to
`count()`. -/
theorem C7_motion_twice (s : State) :
    (old_count s = count s →
      (motion s).1 = Motion.motion.stop ∧ (motion (motion s).2).1 = Motion.motion.stop) ∧
    old_count init = count init ∧
    (motion (motion s).2).1 = Motion.motion.stop ∧
    old_count (motion (motion s).2).2 = count (motion (motion s).2).2 := by
  refine ⟨?_, rfl, ?_, rfl⟩
  · intro h
    simp only [old_count, count] at h
    simp [motion, count, h, wrap_long]
  · simp [motion, count, wrap_long]

/-- C7 at the state reached from the initial state by the edges B, A (counter 2,
snapshot 0): the first `motion()` returns `frwd`, the second `stop`; at the initial
state, where the snapshot equals the counter, both return `stop`. -/
theorem C7_motion_twice_witness :
    run [Edge.B, Edge.A] init = some
      { Enc_A := 1, Enc_B := 1, out_val := 1, old_reading := 2, new_reading := 3,
        ct := 2, old_ct := 0, r := false } ∧
    (motion
      { Enc_A := 1, Enc_B := 1, out_val := 1, old_reading := 2, new_reading := 3,
        ct := 2, old_ct := 0, r := false }).1 = Motion.motion.frwd ∧
    (motion (motion
      { Enc_A := 1, Enc_B := 1, out_val := 1, old_reading := 2, new_reading := 3,
        ct := 2, old_ct := 0, r := false }).2).1 = Motion.motion.stop ∧
    old_count init = count init ∧
    (motion init).1 = Motion.motion.stop ∧
    (motion (motion init).2).1 = Motion.motion.stop :=
  ⟨by decide, by decide,
   (C7_motion_twice
      { Enc_A := 1, Enc_B := 1, out_val := 1, old_reading := 2, new_reading := 3,
        ct := 2, old_ct := 0, r := false }).2.2.1,
   rfl, ((C7_motion_twice init).1 rfl).1, ((C7_motion_twice init).1 rfl).2⟩

/-! ## C8: what `begin()` leaves in the stored reading -/

/-- C8 evaluated on the code. `begin()` run from the static initial state with both
lines sampled high stores the levels 1 and 1 but leaves the stored reading at 0, while
the reading composed from the stored levels is 3. The first edge on A is therefore looked
up as old 0, new 2, which is +1, whereas from the reading that matches the levels the
lookup for old 3, new 2 is -1. -/
theorem C8_begin_leaves_reading :
    (begin 1 1 init).Enc_A = 1 ∧ (begin 1 1 init).Enc_B = 1 ∧
    (begin 1 1 init).new_reading = 0 ∧
    compose (begin 1 1 init).r (begin 1 1 init).Enc_A (begin 1 1 init).Enc_B = 3 ∧
    (begin 1 1 init).new_reading ≠
      compose (begin 1 1 init).r (begin 1 1 init).Enc_A (begin 1 1 init).Enc_B ∧
    (delta_A (begin 1 1 init)).map State.old_reading = some 0 ∧
    lookups [Edge.A] (begin 1 1 init) = [1] ∧
    QEM.qem_at (3 * 4 + 2) = some (-1) := by
  decide

/-! ## C9 and C10: the transition table -/

/-- C9. The table has exactly 16 entries; for every index i in 0..15 the array read
`qem[i]` is defined and equals the i-th element of the literal of the specification;
every entry is one of -1, 0, 1, 2. -/
theorem C9_table_literal :
    QEM.qem.length = 16 ∧
    (∀ i : Fin 16, QEM.qem_at (i.val : Int) = some (spec_table i)) ∧
    (∀ i : Fin 16, QEM.qem_at (i.val : Int) = some (-1) ∨ QEM.qem_at (i.val : Int) = some 0 ∨
      QEM.qem_at (i.val : Int) = some 1 ∨ QEM.qem_at (i.val : Int) = some 2) := by
  refine ⟨rfl, by decide, by decide⟩

/-- C10. For all readings o (old) and n (new) in 0..3 the lookup at `o * 4 + n` is
defined; it is 0 exactly when o = n; it is 2 or -2 exactly when o and n differ in both
bits; it is 1 or -1 exactly when o and n differ in exactly one bit; and for a one-bit
transition the lookup for the opposite transition, at `n * 4 + o`, is its negation. -/
theorem C10_gray_code (o n : Fin 4) :
    (QEM.qem_at ((o.val : Int) * 4 + (n.val : Int))).isSome = true ∧
    (QEM.qem_at ((o.val : Int) * 4 + (n.val : Int)) = some 0 ↔ o = n) ∧
    ((QEM.qem_at ((o.val : Int) * 4 + (n.val : Int)) = some 2 ∨
        QEM.qem_at ((o.val : Int) * 4 + (n.val : Int)) = some (-2)) ↔
      (low_bit o.val ≠ low_bit n.val ∧ high_bit o.val ≠ high_bit n.val)) ∧
    ((QEM.qem_at ((o.val : Int) * 4 + (n.val : Int)) = some 1 ∨
        QEM.qem_at ((o.val : Int) * 4 + (n.val : Int)) = some (-1)) ↔
      ((low_bit o.val ≠ low_bit n.val ∧ high_bit o.val = high_bit n.val) ∨
        (low_bit o.val = low_bit n.val ∧ high_bit o.val ≠ high_bit n.val))) ∧
    (((low_bit o.val ≠ low_bit n.val ∧ high_bit o.val = high_bit n.val) ∨
        (low_bit o.val = low_bit n.val ∧ high_bit o.val ≠ high_bit n.val)) →
      QEM.qem_at ((n.val : Int) * 4 + (o.val : Int)) =
        (QEM.qem_at ((o.val : Int) * 4 + (n.val : Int))).map (fun v => -v)) := by
  revert o n
  decide

/-- C10 at the one-bit transition from reading 0 to reading 1: the lookup at index 1 is
-1 and the lookup for the opposite transition, at index 4, is its negation, 1. -/
theorem C10_gray_code_witness :
    QEM.qem_at (0 * 4 + 1) = some (-1) ∧
    QEM.qem_at (((1 : Fin 4).val : Int) * 4 + ((0 : Fin 4).val : Int)) =
      (QEM.qem_at (((0 : Fin 4).val : Int) * 4 + ((1 : Fin 4).val : Int))).map (fun v => -v) :=
  ⟨by decide, (C10_gray_code 0 1).2.2.2.2 (by decide)⟩

/-! ## C11: what the accessors, `motion()` and `reverse()` leave alone -/

/-- C11. `motion()` and `reverse()` leave the counter, both channel levels and both
stored readings unchanged: `motion()` changes the snapshot only and `reverse()` the
orientation flag only, negating it, so that two `reverse()` calls give back the state.
`count()` and `old_count()` are reads of the counter and of the snapshot. `begin()` does
not write the counter either. -/
theorem C11_frame (s : State) (a b : Nat) :
    (motion s).2 = { s with old_ct := s.ct } ∧
    ((motion s).2.ct = s.ct ∧ (motion s).2.Enc_A = s.Enc_A ∧ (motion s).2.Enc_B = s.Enc_B ∧
      (motion s).2.old_reading = s.old_reading ∧ (motion s).2.new_reading = s.new_reading ∧
      (motion s).2.out_val = s.out_val ∧ (motion s).2.r = s.r) ∧
    reverse s = { s with r := !s.r } ∧
    ((reverse s).ct = s.ct ∧ (reverse s).Enc_A = s.Enc_A ∧ (reverse s).Enc_B = s.Enc_B ∧
      (reverse s).old_reading = s.old_reading ∧ (reverse s).new_reading = s.new_reading ∧
      (reverse s).out_val = s.out_val ∧ (reverse s).old_ct = s.old_ct) ∧
    (reverse s).r = (!s.r) ∧ reverse (reverse s) = s ∧
    count s = s.ct ∧ old_count s = s.old_ct ∧
    count (motion s).2 = count s ∧ count (reverse s) = count s ∧
    count (begin a b s) = count s := by
  refine ⟨rfl, ⟨rfl, rfl, rfl, rfl, rfl, rfl, rfl⟩, rfl, ⟨rfl, rfl, rfl, rfl, rfl, rfl, rfl⟩,
    rfl, ?_, rfl, rfl, rfl, rfl, rfl⟩
  cases s
  simp [reverse]

/-! ## C13: `begin()` and pins without an interrupt -/

/-- C13, as stated, fails. On a platform where pins 2 and 3 have the interrupts 0 and 1
and every other pin maps to -1 ("not an interrupt"), with every line low, `begin()` for
the pins 4 and 5 leaves the same state as `begin()` for the pins 2 and 3, and hands -1
to `attachInterrupt`. So it is not the case that the outcome for a pin pair without
interrupts always differs from the outcome for a capable pair with the same levels. -/
theorem C13_begin_counterexample :
    (begin_on (fun _ => 0) (fun p => if p = 2 then 0 else if p = 3 then 1 else -1)
        4 5 init).1 =
      (begin_on (fun _ => 0) (fun p => if p = 2 then 0 else if p = 3 then 1 else -1)
        2 3 init).1 ∧
    (begin_on (fun _ => 0) (fun p => if p = 2 then 0 else if p = 3 then 1 else -1)
        4 5 init).2 =
      [PlatformCall.pinMode 4, PlatformCall.pinMode 5,
       PlatformCall.digitalRead 4, PlatformCall.digitalRead 5,
       PlatformCall.attachInterrupt (-1) Edge.A, PlatformCall.attachInterrupt (-1) Edge.B] ∧
    ¬ (∀ (digitalRead : Int → Nat) (digitalPinToInterrupt : Int → Int)
        (not_an_interrupt A_pin B_pin A2_pin B2_pin : Int) (s : State),
        (digitalPinToInterrupt A_pin = not_an_interrupt ∨
          digitalPinToInterrupt B_pin = not_an_interrupt) →
        digitalPinToInterrupt A2_pin ≠ not_an_interrupt →
        digitalPinToInterrupt B2_pin ≠ not_an_interrupt →
        digitalRead A_pin = digitalRead A2_pin → digitalRead B_pin = digitalRead B2_pin →
        (begin_on digitalRead digitalPinToInterrupt A_pin B_pin s).1 ≠
          (begin_on digitalRead digitalPinToInterrupt A2_pin B2_pin s).1) := by
  refine ⟨by decide, by decide, ?_⟩
  intro hall
  exact hall (fun _ => 0) (fun p => if p = 2 then 0 else if p = 3 then 1 else -1)
    (-1) 4 5 2 3 init (Or.inl (by decide)) (by decide) (by decide) rfl rfl rfl

/-- C13, amended. For every platform and every two pin pairs with the same sampled
levels, `begin()` leaves the same state, whatever the pin-to-interrupt mapping yields
for the pins: the state after `begin()` is the state before it with the two sampled
levels stored, and the values the mapping yields are handed to `attachInterrupt` as
they are, for `delta_A` and for `delta_B`. -/
theorem C13_begin_ignores_mapping (digitalRead : Int → Nat)
    (digitalPinToInterrupt : Int → Int) (A_pin B_pin A2_pin B2_pin : Int) (s : State)
    (hA : digitalRead A_pin = digitalRead A2_pin)
    (hB : digitalRead B_pin = digitalRead B2_pin) :
    (begin_on digitalRead digitalPinToInterrupt A_pin B_pin s).1 =
      (begin_on digitalRead digitalPinToInterrupt A2_pin B2_pin s).1 ∧
    (begin_on digitalRead digitalPinToInterrupt A_pin B_pin s).1 =
      begin (digitalRead A_pin) (digitalRead B_pin) s ∧
    PlatformCall.attachInterrupt (digitalPinToInterrupt A_pin) Edge.A ∈
      (begin_on digitalRead digitalPinToInterrupt A_pin B_pin s).2 ∧
    PlatformCall.attachInterrupt (digitalPinToInterrupt B_pin) Edge.B ∈
      (begin_on digitalRead digitalPinToInterrupt A_pin B_pin s).2 := by
  refine ⟨?_, rfl, ?_, ?_⟩
  · simp only [begin_on, hA, hB]
  · simp [begin_on]
  · simp [begin_on]

/-- C13 (amended) on the platform of the counterexample, all lines high: `begin()` for
the pins 4 and 5, which have no interrupt, leaves the state `begin()` leaves for the
pins 2 and 3. -/
theorem C13_begin_ignores_mapping_witness :
    (begin_on (fun _ => 1) (fun p => if p = 2 then 0 else if p = 3 then 1 else -1)
        4 5 init).1 =
      (begin_on (fun _ => 1) (fun p => if p = 2 then 0 else if p = 3 then 1 else -1)
        2 3 init).1 :=
  (C13_begin_ignores_mapping (fun _ => 1)
    (fun p => if p = 2 then 0 else if p = 3 then 1 else -1) 4 5 2 3 init rfl rfl).1

/-! ## C14: the reading a handler stores -/

theorem lnot_ne (x : Nat) : lnot x ≠ x := by
  unfold lnot; split <;> omega

theorem compose_cases (r : Bool) (a b : Nat) :
    (r = false → compose r a b = (b : Int) * 2 + (a : Int)) ∧
    (r = true → compose r a b = (a : Int) * 2 + (b : Int)) := by
  cases r <;> simp [compose]

theorem delta_A_post (s s1 : State) (hB : s.Enc_B ≤ 1) (h : delta_A s = some s1) :
    s1.old_reading = s.new_reading ∧ s1.Enc_A = lnot s.Enc_A ∧ s1.Enc_B = s.Enc_B ∧
    s1.r = s.r ∧ s1.old_ct = s.old_ct ∧
    s1.new_reading = compose s1.r s1.Enc_A s1.Enc_B ∧
    0 ≤ s1.new_reading ∧ s1.new_reading ≤ 3 := by
  have h2 := (delta_A_eq s s1 h).2
  have hr := compose_range s.r (lnot s.Enc_A) s.Enc_B (lnot_le_one _) hB
  rw [h2]
  exact ⟨rfl, rfl, rfl, rfl, rfl, rfl, hr.1, hr.2⟩

theorem delta_B_post (s s1 : State) (hA : s.Enc_A ≤ 1) (h : delta_B s = some s1) :
    s1.old_reading = s.new_reading ∧ s1.Enc_A = s.Enc_A ∧ s1.Enc_B = lnot s.Enc_B ∧
    s1.r = s.r ∧ s1.old_ct = s.old_ct ∧
    s1.new_reading = compose s1.r s1.Enc_A s1.Enc_B ∧
    0 ≤ s1.new_reading ∧ s1.new_reading ≤ 3 := by
  have h2 := (delta_B_eq s s1 h).2
  have hr := compose_range s.r s.Enc_A (lnot s.Enc_B) hA (lnot_le_one _)
  rw [h2]
  exact ⟨rfl, rfl, rfl, rfl, rfl, rfl, hr.1, hr.2⟩

/-- C14. For every state with both levels in {0,1}: whenever `delta_A` (`delta_B`)
returns, `old_reading` is the `new_reading` stored before the call, the level of the
handler's own channel is toggled and the other level is as before, and `new_reading` is
`Enc_B * 2 + Enc_A` when the flag is false and `Enc_A * 2 + Enc_B` when it is true,
taken on the levels after the toggle; so the stored reading lies in 0..3 and is
consistent with the stored levels under the flag. Both handlers return when the reading
stored before the call lies in 0..3. -/
theorem C14_reading_recomputation (s : State) (hA : s.Enc_A ≤ 1) (hB : s.Enc_B ≤ 1) :
    (∀ s1, delta_A s = some s1 →
      s1.old_reading = s.new_reading ∧
      (s1.Enc_A = lnot s.Enc_A ∧ s1.Enc_A ≠ s.Enc_A ∧ s1.Enc_B = s.Enc_B) ∧
      (s1.r = false → s1.new_reading = (s1.Enc_B : Int) * 2 + (s1.Enc_A : Int)) ∧
      (s1.r = true → s1.new_reading = (s1.Enc_A : Int) * 2 + (s1.Enc_B : Int)) ∧
      (0 ≤ s1.new_reading ∧ s1.new_reading ≤ 3) ∧ Consistent s1) ∧
    (∀ s1, delta_B s = some s1 →
      s1.old_reading = s.new_reading ∧
      (s1.Enc_B = lnot s.Enc_B ∧ s1.Enc_B ≠ s.Enc_B ∧ s1.Enc_A = s.Enc_A) ∧
      (s1.r = false → s1.new_reading = (s1.Enc_B : Int) * 2 + (s1.Enc_A : Int)) ∧
      (s1.r = true → s1.new_reading = (s1.Enc_A : Int) * 2 + (s1.Enc_B : Int)) ∧
      (0 ≤ s1.new_reading ∧ s1.new_reading ≤ 3) ∧ Consistent s1) ∧
    (0 ≤ s.new_reading → s.new_reading ≤ 3 →
      (delta_A s).isSome = true ∧ (delta_B s).isSome = true) := by
  refine ⟨?_, ?_, ?_⟩
  · intro s1 h
    obtain ⟨ho, ha, hb, _, _, hn, h0, h3⟩ := delta_A_post s s1 hB h
    have hc := compose_cases s1.r s1.Enc_A s1.Enc_B
    refine ⟨ho, ⟨ha, ?_, hb⟩, ?_, ?_, ⟨h0, h3⟩, ?_, ?_, hn⟩
    · rw [ha]; exact lnot_ne _
    · intro hf; rw [hn]; exact hc.1 hf
    · intro ht; rw [hn]; exact hc.2 ht
    · rw [ha]; exact lnot_le_one _
    · rw [hb]; exact hB
  · intro s1 h
    obtain ⟨ho, ha, hb, _, _, hn, h0, h3⟩ := delta_B_post s s1 hA h
    have hc := compose_cases s1.r s1.Enc_A s1.Enc_B
    refine ⟨ho, ⟨hb, ?_, ha⟩, ?_, ?_, ⟨h0, h3⟩, ?_, ?_, hn⟩
    · rw [hb]; exact lnot_ne _
    · intro hf; rw [hn]; exact hc.1 hf
    · intro ht; rw [hn]; exact hc.2 ht
    · rw [ha]; exact hA
    · rw [hb]; exact lnot_le_one _
  · intro h0 h3
    obtain ⟨sa, hsa, _⟩ := step_defined Edge.A s hA hB h0 h3
    obtain ⟨sb, hsb, _⟩ := step_defined Edge.B s hA hB h0 h3
    simp only [step] at hsa hsb
    simp [hsa, hsb]

/-- C14 at the state with levels A = 1, B = 0, stored reading 1 and the flag true:
`delta_B` returns a state with `old_reading` 1, level B toggled to 1, level A still 1 and
`new_reading` equal to `Enc_A * 2 + Enc_B`, which is 3. -/
theorem C14_reading_recomputation_witness :
    delta_B
      { Enc_A := 1, Enc_B := 0, out_val := 0, old_reading := 0, new_reading := 1,
        ct := 0, old_ct := 0, r := true } = some
      { Enc_A := 1, Enc_B := 1, out_val := -1, old_reading := 1, new_reading := 3,
        ct := -1, old_ct := 0, r := true } ∧
    (3 : Int) = ((1 : Nat) : Int) * 2 + ((1 : Nat) : Int) :=
  ⟨by decide,
   ((C14_reading_recomputation
      { Enc_A := 1, Enc_B := 0, out_val := 0, old_reading := 0, new_reading := 1,
        ct := 0, old_ct := 0, r := true } (by decide) (by decide)).2.1
      { Enc_A := 1, Enc_B := 1, out_val := -1, old_reading := 1, new_reading := 3,
        ct := -1, old_ct := 0, r := true } (by decide)).2.2.2.1 rfl⟩

/-! ## C15: one edge, one count -/

theorem step_consistent (e : Edge) (s : State) (h : Consistent s) :
    ∃ s1, step e s = some s1 ∧ Consistent s1 ∧ s1.r = s.r ∧
      (s1.out_val = 1 ∨ s1.out_val = -1) ∧ s1.ct = s.ct + s1.out_val ∧
      QEM.qem_at (s.new_reading * 4 + s1.new_reading) = some s1.out_val := by
  obtain ⟨a, b, ov, orr, nr, c, oc, r⟩ := s
  obtain ⟨hA, hB, hn⟩ := h
  simp only at hA hB hn
  subst hn
  interval_cases a <;> interval_cases b <;> cases r <;> cases e <;>
    refine ⟨_, rfl, ?_⟩ <;>
    simp [Consistent, compose, lnot, switch_out, QEM.qem, QEM.qem_at] <;>
    omega

/-- C15. For every state whose stored reading is consistent with the stored levels
under the current flag (levels in {0,1}), one invocation of `delta_A` or `delta_B`
returns, its lookup is 1 or -1 (never 0, never of magnitude 2), and the counter changes
by exactly that amount: by +1 or by -1. -/
theorem C15_single_edge_counts (s : State) (e : Edge) (h : Consistent s) :
    ∃ s1, step e s = some s1 ∧
      QEM.qem_at (s1.old_reading * 4 + s1.new_reading) = some s1.out_val ∧
      (s1.out_val = 1 ∨ s1.out_val = -1) ∧
      s1.out_val ≠ 0 ∧ s1.out_val ≠ 2 ∧ s1.out_val ≠ -2 ∧
      (s1.ct = s.ct + 1 ∨ s1.ct = s.ct - 1) ∧ s1.ct = s.ct + s1.out_val := by
  obtain ⟨s1, hs, _, _, hv, hct, hq⟩ := step_consistent e s h
  have hold : s1.old_reading = s.new_reading := by
    cases e
    · rw [(delta_A_eq s s1 hs).2]
    · rw [(delta_B_eq s s1 hs).2]
  refine ⟨s1, hs, by rw [hold]; exact hq, hv, ?_, ?_, ?_, ?_, hct⟩
  · rcases hv with h1 | h1 <;> rw [h1] <;> decide
  · rcases hv with h1 | h1 <;> rw [h1] <;> decide
  · rcases hv with h1 | h1 <;> rw [h1] <;> decide
  · rcases hv with h1 | h1 <;> rw [hct, h1]
    · exact Or.inl rfl
    · exact Or.inr rfl

/-- C15 at the state reached from the initial state by an edge on B (levels A = 0,
B = 1, reading 2, counter 1): an edge on A looks up 1 and takes the counter to 2. -/
theorem C15_single_edge_counts_witness :
    Consistent
      { Enc_A := 0, Enc_B := 1, out_val := 1, old_reading := 0, new_reading := 2,
        ct := 1, old_ct := 0, r := false } ∧
    step Edge.A
      { Enc_A := 0, Enc_B := 1, out_val := 1, old_reading := 0, new_reading := 2,
        ct := 1, old_ct := 0, r := false } = some
      { Enc_A := 1, Enc_B := 1, out_val := 1, old_reading := 2, new_reading := 3,
        ct := 2, old_ct := 0, r := false } ∧
    ∃ s1, step Edge.A
      { Enc_A := 0, Enc_B := 1, out_val := 1, old_reading := 0, new_reading := 2,
        ct := 1, old_ct := 0, r := false } = some s1 ∧
      (s1.out_val = 1 ∨ s1.out_val = -1) :=
  have hc : Consistent
      { Enc_A := 0, Enc_B := 1, out_val := 1, old_reading := 0, new_reading := 2,
        ct := 1, old_ct := 0, r := false } := by
    simp [Consistent, compose]
  ⟨hc, by decide,
    (C15_single_edge_counts _ Edge.A hc).imp (fun _ hs => ⟨hs.1, hs.2.2.1⟩)⟩

/-! ## C16: no cross-channel writes -/

/-- C16. For every state: whenever `delta_A` returns, the stored level of channel B,
the orientation flag and the motion snapshot are as before and the level of channel A is
flipped (0 becomes 1, 1 becomes 0); whenever `delta_B` returns, the stored level of
channel A, the flag and the snapshot are as before and the level of channel B is
flipped. Both handlers return when the levels are in {0,1} and the stored reading is in
0..3. -/
theorem C16_no_cross_channel_writes (s : State) :
    (∀ s1, delta_A s = some s1 →
      s1.Enc_B = s.Enc_B ∧ s1.Enc_A = lnot s.Enc_A ∧
      (s.Enc_A = 0 → s1.Enc_A = 1) ∧ (s.Enc_A = 1 → s1.Enc_A = 0) ∧
      s1.r = s.r ∧ old_count s1 = old_count s) ∧
    (∀ s1, delta_B s = some s1 →
      s1.Enc_A = s.Enc_A ∧ s1.Enc_B = lnot s.Enc_B ∧
      (s.Enc_B = 0 → s1.Enc_B = 1) ∧ (s.Enc_B = 1 → s1.Enc_B = 0) ∧
      s1.r = s.r ∧ old_count s1 = old_count s) ∧
    (s.Enc_A ≤ 1 → s.Enc_B ≤ 1 → 0 ≤ s.new_reading → s.new_reading ≤ 3 →
      (delta_A s).isSome = true ∧ (delta_B s).isSome = true) := by
  refine ⟨?_, ?_, ?_⟩
  · intro s1 h
    have h2 := (delta_A_eq s s1 h).2
    rw [h2]
    refine ⟨rfl, rfl, ?_, ?_, rfl, rfl⟩
    · intro h0; simp [lnot, h0]
    · intro h1; simp [lnot, h1]
  · intro s1 h
    have h2 := (delta_B_eq s s1 h).2
    rw [h2]
    refine ⟨rfl, rfl, ?_, ?_, rfl, rfl⟩
    · intro h0; simp [lnot, h0]
    · intro h1; simp [lnot, h1]
  · intro hA hB h0 h3
    obtain ⟨sa, hsa, _⟩ := step_defined Edge.A s hA hB h0 h3
    obtain ⟨sb, hsb, _⟩ := step_defined Edge.B s hA hB h0 h3
    simp only [step] at hsa hsb
    simp [hsa, hsb]

/-- C16 at the initial state: `delta_A` returns, with level A flipped from 0 to 1 and
level B, the flag and the snapshot as before. -/
theorem C16_no_cross_channel_writes_witness :
    delta_A init = some
      { Enc_A := 1, Enc_B := 0, out_val := -1, old_reading := 0, new_reading := 1,
        ct := -1, old_ct := 0, r := false } ∧
    (1 : Nat) = lnot init.Enc_A ∧ (0 : Nat) = init.Enc_B :=
  have h := (C16_no_cross_channel_writes init).1
      { Enc_A := 1, Enc_B := 0, out_val := -1, old_reading := 0, new_reading := 1,
        ct := -1, old_ct := 0, r := false } (by decide)
  ⟨by decide, h.2.1, h.1⟩

/-! ## C17: the two handlers are symmetric -/

/-- C17. For every state `s`, `delta_B` at `s` is `delta_A` with the channel roles
exchanged before and after: `delta_B s` is `sigma` applied to the result of `delta_A` at
`sigma s` (and it is undefined exactly when that one is). `sigma` applied twice gives
back the state. -/
theorem C17_handlers_symmetric (s : State) :
    delta_B s = (delta_A (sigma s)).map sigma ∧ sigma (sigma s) = s := by
  obtain ⟨a, b, ov, orr, nr, c, oc, r⟩ := s
  constructor
  · cases r <;>
      simp only [delta_A, delta_B, sigma, Bool.not_false, Bool.not_true,
        Bool.false_eq_true, if_true, if_false] <;>
      generalize QEM.qem_at _ = q <;> cases q <;> simp [sigma]
  · simp [sigma]

/-! ## C18: the table index stays in range -/

/-- C18. In every state reachable from the static initial state by `begin()` (sampling
levels in {0,1}), `delta_A`, `delta_B`, `reverse()` and `motion()`, both `old_reading`
and `new_reading` lie in 0..3, the index `old_reading * 4 + new_reading` lies in 0..15
and the table is defined there; and each handler run from such a state returns, having
read the table at an index in 0..15. -/
theorem C18_index_in_range (s : State) (h : Reachable s) :
    (0 ≤ s.old_reading ∧ s.old_reading ≤ 3) ∧ (0 ≤ s.new_reading ∧ s.new_reading ≤ 3) ∧
    (0 ≤ s.old_reading * 4 + s.new_reading ∧ s.old_reading * 4 + s.new_reading ≤ 15) ∧
    (QEM.qem_at (s.old_reading * 4 + s.new_reading)).isSome = true ∧
    (∀ e : Edge, ∃ s1, step e s = some s1 ∧
      (0 ≤ s1.old_reading * 4 + s1.new_reading ∧
        s1.old_reading * 4 + s1.new_reading ≤ 15) ∧
      QEM.qem_at (s1.old_reading * 4 + s1.new_reading) = some s1.out_val) := by
  obtain ⟨hA, hB, ⟨ho0, ho3⟩, hn0, hn3⟩ := reachable_bounds s h
  refine ⟨⟨ho0, ho3⟩, ⟨hn0, hn3⟩, ⟨by omega, by omega⟩, ?_, ?_⟩
  · obtain ⟨v, hv, _⟩ := qem_at_defined (s.old_reading * 4 + s.new_reading)
      (by omega) (by omega)
    simp [hv]
  · intro e
    obtain ⟨s1, hs, _, _, h10, h13⟩ := step_defined e s hA hB hn0 hn3
    have hq : s1.old_reading = s.new_reading ∧
        QEM.qem_at (s.new_reading * 4 + s1.new_reading) = some s1.out_val := by
      cases e
      · have h1 := delta_A_eq s s1 hs
        have h2 := h1.2
        refine ⟨by rw [h2], ?_⟩
        have h3 : s1.new_reading = compose s.r (lnot s.Enc_A) s.Enc_B := by rw [h2]
        rw [h3]; exact h1.1
      · have h1 := delta_B_eq s s1 hs
        have h2 := h1.2
        refine ⟨by rw [h2], ?_⟩
        have h3 : s1.new_reading = compose s.r s.Enc_A (lnot s.Enc_B) := by rw [h2]
        rw [h3]; exact h1.1
    refine ⟨s1, hs, ⟨by omega, by omega⟩, ?_⟩
    rw [hq.1]; exact hq.2

/-- C18 at the state reached by `begin()` sampling A high and B low, then `reverse()`:
the stored readings are 0 and 0, and an edge on B reads the table at index 0 * 4 + 3. -/
theorem C18_index_in_range_witness :
    Reachable (reverse (begin 1 0 init)) ∧
    (reverse (begin 1 0 init)).old_reading * 4 + (reverse (begin 1 0 init)).new_reading = 0 ∧
    (step Edge.B (reverse (begin 1 0 init))).map
      (fun s1 => s1.old_reading * 4 + s1.new_reading) = some 3 ∧
    (0 ≤ (reverse (begin 1 0 init)).old_reading * 4 + (reverse (begin 1 0 init)).new_reading ∧
      (reverse (begin 1 0 init)).old_reading * 4 + (reverse (begin 1 0 init)).new_reading
        ≤ 15) :=
  have hr : Reachable (reverse (begin 1 0 init)) :=
    Reachable.reverse _ (Reachable.begin 1 0 init (by decide) (by decide) Reachable.init)
  ⟨hr, by decide, by decide, (C18_index_in_range _ hr).2.2.1⟩

/-! ## C19: the counter residue determines the reading -/

theorem step_residue (e : Edge) (s : State) (hc : Consistent s) (hr : s.r = false)
    (hres : s.new_reading = residue_reading s.ct) :
    ∃ s1, step e s = some s1 ∧ Consistent s1 ∧ s1.r = false ∧
      s1.new_reading = residue_reading s1.ct := by
  obtain ⟨a, b, ov, orr, nr, c, oc, r⟩ := s
  obtain ⟨hA, hB, hn⟩ := hc
  simp only at hA hB hn hr hres
  subst hr
  subst hn
  unfold residue_reading at hres
  interval_cases a <;> interval_cases b <;> cases e <;>
    refine ⟨_, rfl, ?_⟩ <;>
    simp [Consistent, compose, lnot, switch_out, QEM.qem, residue_reading] at hres ⊢ <;>
    split_ifs at hres ⊢ <;> omega

theorem run_residue (es : List Edge) :
    ∀ s : State, Consistent s → s.r = false → s.new_reading = residue_reading s.ct →
      ∃ s1, run es s = some s1 ∧ Consistent s1 ∧ s1.r = false ∧
        s1.new_reading = residue_reading s1.ct := by
  induction es with
  | nil =>
    intro s hc hr hres
    exact ⟨s, rfl, hc, hr, hres⟩
  | cons e es ih =>
    intro s hc hr hres
    obtain ⟨s1, hs, hc1, hr1, hres1⟩ := step_residue e s hc hr hres
    obtain ⟨s2, hs2, h2⟩ := ih s1 hc1 hr1 hres1
    exact ⟨s2, by simp [run, hs, hs2], h2⟩

theorem run_append (es es2 : List Edge) :
    ∀ s : State, run (es ++ es2) s = (run es s).bind (run es2) := by
  induction es with
  | nil => intro s; rfl
  | cons e es ih =>
    intro s
    cases hs : step e s with
    | none => simp [run, hs]
    | some s1 => simp [run, hs, ih s1]

theorem consistent_init : Consistent init := by
  simp [Consistent, init, compose]

/-- C19. Starting from the initial state (both lines low, reading 0, counter 0, flag
false) and with no `reverse()` call, every finite sequence of A/B edges runs to the end,
and in the state it reaches the stored reading is 0, 2, 3, 1 exactly when the counter is
congruent to 0, 1, 2, 3 modulo 4, and is the reading of the stored levels. Hence the
counter is a multiple of 4 whenever both lines are low again, and between two points of
a run at which the two lines have the same levels the counter changes by a multiple
of 4. -/
theorem C19_counter_residue (es es2 : List Edge) :
    ∃ s s2, run es init = some s ∧ run (es ++ es2) init = some s2 ∧
      s.new_reading = residue_reading (count s) ∧
      (s.new_reading = 0 ↔ count s % 4 = 0) ∧ (s.new_reading = 2 ↔ count s % 4 = 1) ∧
      (s.new_reading = 3 ↔ count s % 4 = 2) ∧ (s.new_reading = 1 ↔ count s % 4 = 3) ∧
      s.new_reading = compose false s.Enc_A s.Enc_B ∧
      (s.Enc_A = 0 → s.Enc_B = 0 → count s % 4 = 0) ∧
      (s2.Enc_A = s.Enc_A → s2.Enc_B = s.Enc_B → (count s2 - count s) % 4 = 0) := by
  obtain ⟨s, hs, hc, hr, hres⟩ := run_residue es init consistent_init rfl rfl
  obtain ⟨s2, hs2, hc2, hr2, hres2⟩ := run_residue es2 s hc hr hres
  obtain ⟨_, _, hn⟩ := hc
  obtain ⟨_, _, hn2⟩ := hc2
  rw [hr] at hn
  rw [hr2] at hn2
  have hrun2 : run (es ++ es2) init = some s2 := by
    rw [run_append, hs]; exact hs2
  refine ⟨s, s2, hs, hrun2, hres, ?_, ?_, ?_, ?_, hn, ?_, ?_⟩
  · simp only [count]; rw [hres]; unfold residue_reading; split_ifs <;> omega
  · simp only [count]; rw [hres]; unfold residue_reading; split_ifs <;> omega
  · simp only [count]; rw [hres]; unfold residue_reading; split_ifs <;> omega
  · simp only [count]; rw [hres]; unfold residue_reading; split_ifs <;> omega
  · intro ha hb
    rw [ha, hb, hres] at hn
    simp only [count]
    unfold residue_reading compose at hn
    split_ifs at hn <;> simp at hn <;> omega
  · intro ha hb
    rw [ha, hb, ← hn, hres, hres2] at hn2
    simp only [count]
    unfold residue_reading at hn2
    split_ifs at hn2 <;> omega

/-- C19 for the edge B followed by the edges A, B, A, B: after the first edge the
counter is 1 and the reading 2; after all five the lines are at the same levels again and
the counter is 5, four more. -/
theorem C19_counter_residue_witness :
    (run [Edge.B] init).map (fun s => (s.new_reading, count s)) = some (2, 1) ∧
    (run ([Edge.B] ++ [Edge.A, Edge.B, Edge.A, Edge.B]) init).map
      (fun s => (s.new_reading, count s)) = some (2, 5) ∧
    ∃ s s2, run [Edge.B] init = some s ∧
      run ([Edge.B] ++ [Edge.A, Edge.B, Edge.A, Edge.B]) init = some s2 ∧
      (s.new_reading = 2 ↔ count s % 4 = 1) ∧
      (s2.Enc_A = s.Enc_A → s2.Enc_B = s.Enc_B → (count s2 - count s) % 4 = 0) :=
  ⟨by decide, by decide,
    (C19_counter_residue [Edge.B] [Edge.A, Edge.B, Edge.A, Edge.B]).imp
      (fun _ hs => hs.imp (fun _ h => ⟨h.1, h.2.1, h.2.2.2.2.1, h.2.2.2.2.2.2.2.2.2⟩))⟩

/-! ## C20: two edges on the same line cancel -/

/-- C20. For every state whose stored reading is consistent with the stored levels under
the current flag, the same handler run twice in succession returns both times, the two
lookups are 1 and -1 in one order or the other, and the counter, both channel levels and
`new_reading` are back at their values before the two calls. -/
theorem C20_jitter_cancels (s : State) (e : Edge) (h : Consistent s) :
    ∃ s1 s2, step e s = some s1 ∧ step e s1 = some s2 ∧
      s2.out_val = -s1.out_val ∧ (s1.out_val = 1 ∨ s1.out_val = -1) ∧
      count s2 = count s ∧ s2.Enc_A = s.Enc_A ∧ s2.Enc_B = s.Enc_B ∧
      s2.new_reading = s.new_reading ∧ s2.r = s.r := by
  obtain ⟨a, b, ov, orr, nr, c, oc, r⟩ := s
  obtain ⟨hA, hB, hn⟩ := h
  simp only at hA hB hn
  subst hn
  interval_cases a <;> interval_cases b <;> cases r <;> cases e <;>
    refine ⟨_, _, rfl, rfl, ?_⟩ <;>
    simp [count, compose, lnot, switch_out, QEM.qem]

/-- C20 at the state reached from the initial state by an edge on B (levels A = 0,
B = 1, reading 2, counter 1): two edges on A take the counter to 2 and back to 1, and
the levels and the reading are as before. -/
theorem C20_jitter_cancels_witness :
    Consistent
      { Enc_A := 0, Enc_B := 1, out_val := 1, old_reading := 0, new_reading := 2,
        ct := 1, old_ct := 0, r := false } ∧
    run [Edge.A, Edge.A]
      { Enc_A := 0, Enc_B := 1, out_val := 1, old_reading := 0, new_reading := 2,
        ct := 1, old_ct := 0, r := false } = some
      { Enc_A := 0, Enc_B := 1, out_val := -1, old_reading := 3, new_reading := 2,
        ct := 1, old_ct := 0, r := false } ∧
    ∃ s1 s2, step Edge.A
      { Enc_A := 0, Enc_B := 1, out_val := 1, old_reading := 0, new_reading := 2,
        ct := 1, old_ct := 0, r := false } = some s1 ∧ step Edge.A s1 = some s2 ∧
      count s2 = 1 :=
  have hc : Consistent
      { Enc_A := 0, Enc_B := 1, out_val := 1, old_reading := 0, new_reading := 2,
        ct := 1, old_ct := 0, r := false } := by
    simp [Consistent, compose]
  ⟨hc, by decide,
    (C20_jitter_cancels _ Edge.A hc).imp
      (fun _ hs => hs.imp (fun _ h => ⟨h.1, h.2.1, h.2.2.2.2.1⟩))⟩
